import Mathlib

/-
Verification development for the Policy_Nav text-processing core
(src/backend/text_processor.py): the TextChunker (sentence, paragraph and
fallback fixed-width chunking) and the TextSearcher (relevance scoring,
match offsets, snippets).

Python strings are modelled as lists of characters (`Str`).  Python's
builtin string operations used by the source (`strip`, `lower`, `in`,
`find`, `count`, `split`) are embedded below with their CPython semantics.
Sentence tokenization, word tokenization and the stop-word set are external
NLTK collaborators; they enter the model as function parameters.
Python floats are modelled as rationals.
-/

abbrev Str := List Char

/-- Python `str.strip()` with no argument strips whitespace characters. -/
def isWS (c : Char) : Bool := c.isWhitespace

/-- Python `s.strip()`: drop leading and trailing whitespace. -/
def pyStrip (s : Str) : Str :=
  ((s.dropWhile isWS).reverse.dropWhile isWS).reverse

/-- Python `s.lower()`, modelled character-wise (adequate for ASCII text). -/
def pyLower (s : Str) : Str := s.map Char.toLower

/-- Occurrence test: `needle` occurs in `hay` starting at position `i` (and `i` is a valid
start position, `i ≤ len hay`, matching CPython's `find` domain). -/
def strMatchAt (hay needle : Str) (i : Nat) : Bool :=
  decide (i ≤ hay.length) && needle.isPrefixOf (hay.drop i)

/-- Python `hay.find(needle, start)`: the least position `p ≥ start` where
`needle` occurs, `none` standing for CPython's `-1`. -/
def pyFind (hay needle : Str) (start : Nat) : Option Nat :=
  (List.range (hay.length + 1)).find?
    (fun i => decide (start ≤ i) && strMatchAt hay needle i)

/-- Python `needle in hay` (substring containment). -/
def isSubstr (needle hay : Str) : Bool := (pyFind hay needle 0).isSome

/-- Python `hay.count(needle)`: number of non-overlapping occurrences,
scanning left to right and skipping `max 1 (len needle)` characters after
each hit (CPython counts `len+1` for an empty needle, which this scan
reproduces).  The second state component is the next admissible start
position, mirroring the scan pointer. -/
def pyCount (hay needle : Str) : Nat :=
  ((List.range (hay.length + 1)).foldl
    (fun (st : Nat × Nat) i =>
      if st.2 ≤ i ∧ strMatchAt hay needle i then
        (st.1 + 1, i + max 1 needle.length)
      else st)
    (0, 0)).1

/-- Python `text.split('\n\n')` (the only `split` the source performs):
split on each non-overlapping occurrence of two consecutive newlines,
scanning left to right. -/
def splitNN : Str → List Str
  | [] => [[]]
  | [c] => [[c]]
  | a :: b :: rest =>
    if a = '\n' ∧ b = '\n' then
      [] :: splitNN rest
    else
      match splitNN (b :: rest) with
      | [] => [[a]]
      | p :: ps => (a :: p) :: ps

/-- Python `current += " " + s if current else s` — the buffer-append idiom
used by both chunking loops (with a configurable separator). -/
def pyJoinBuf (sep : Str) (current s : Str) : Str :=
  if current ≠ [] then current ++ sep ++ s else s

/-! ## TextChunker (src/backend/text_processor.py, class TextChunker) -/

/-- Chunk record emitted by `chunk_by_sentences` (a Python dict in the
source; its keys become fields). -/
structure SChunk where
  id : Nat
  text : Str
  sentences : List Str
  start_sentence : Nat
  end_sentence : Nat
  word_count : Nat
  deriving Repr, DecidableEq

/-- Chunk record emitted by `chunk_by_paragraphs`. -/
structure PChunk where
  id : Nat
  text : Str
  paragraphs : List Str
  word_count : Nat
  deriving Repr, DecidableEq

/-- Chunk record emitted by `_fallback_chunk`; carries the span. -/
structure FChunk where
  id : Nat
  text : Str
  word_count : Nat
  start_pos : Nat
  end_pos : Nat
  deriving Repr, DecidableEq

/-- Inner loop of `TextChunker._get_overlap_text`: walk the sentence list
(already reversed by the caller), accumulating sentences while the
accumulated text plus the next sentence still fits in `overlap`
characters; `break` on the first failure. -/
def get_overlap_go (overlap : Nat) : Str → List Str → Str
  | acc, [] => acc
  | acc, s :: rest =>
    if (acc ++ s).length ≤ overlap then
      get_overlap_go overlap (if acc ≠ [] then s ++ [' '] ++ acc else s) rest
    else acc

/-- Embeds `TextChunker._get_overlap_text(sentences)`: overlap tail of a closed
chunk, built from whole sentences from the end, then stripped. -/
def get_overlap_text (overlap : Nat) (sentences : List Str) : Str :=
  pyStrip (get_overlap_go overlap [] sentences.reverse)

/-- Loop state of `chunk_by_sentences`: emitted chunks, current buffer,
sentences of the current buffer, next chunk id. -/
structure SState where
  chunks : List SChunk
  current_chunk : Str
  current_chunk_sentences : List Str
  chunk_id : Nat
  deriving Repr, DecidableEq

/-- One iteration of the `chunk_by_sentences` loop body for sentence `s`:
close the current chunk when appending `s` would exceed `chunk_size` (and
the buffer is non-empty), seeding the next buffer with the overlap tail;
then append `s` to the buffer and to the sentence list. -/
def sentStep (chunk_size overlap : Nat) (wordTok : Str → List Str)
    (st : SState) (s : Str) : SState :=
  let st1 : SState :=
    if (st.current_chunk ++ s).length > chunk_size ∧ st.current_chunk ≠ [] then
      let closed : SChunk :=
        { id := st.chunk_id
          text := pyStrip st.current_chunk
          sentences := st.current_chunk_sentences
          start_sentence :=
            if st.chunks ≠ [] then st.chunk_id * st.current_chunk_sentences.length else 0
          end_sentence :=
            st.chunk_id * st.current_chunk_sentences.length
              + st.current_chunk_sentences.length - 1
          word_count := (wordTok st.current_chunk).length }
      let seeded : Str × List Str :=
        if 0 < overlap ∧ st.current_chunk_sentences ≠ [] then
          let ovt := get_overlap_text overlap st.current_chunk_sentences
          (ovt, st.current_chunk_sentences.filter (fun x => isSubstr x ovt))
        else ([], [])
      { chunks := st.chunks ++ [closed]
        current_chunk := seeded.1
        current_chunk_sentences := seeded.2
        chunk_id := st.chunk_id + 1 }
    else st
  { st1 with
    current_chunk := pyJoinBuf [' '] st1.current_chunk s
    current_chunk_sentences := st1.current_chunk_sentences ++ [s] }

/-- End of `chunk_by_sentences`: emit the buffer as a final chunk if its
stripped text is non-empty. -/
def sentFinalize (wordTok : Str → List Str) (st : SState) : List SChunk :=
  if pyStrip st.current_chunk ≠ [] then
    st.chunks ++
      [{ id := st.chunk_id
         text := pyStrip st.current_chunk
         sentences := st.current_chunk_sentences
         start_sentence :=
           if st.chunks ≠ [] then st.chunks.length * st.current_chunk_sentences.length else 0
         end_sentence :=
           st.chunks.length * st.current_chunk_sentences.length
             + st.current_chunk_sentences.length - 1
         word_count := (wordTok st.current_chunk).length }]
  else st.chunks

/-- Run the `chunk_by_sentences` loop from an arbitrary state over the
remaining sentences, then finalize. -/
def runSentences (chunk_size overlap : Nat) (wordTok : Str → List Str)
    (st : SState) (sentences : List Str) : List SChunk :=
  sentFinalize wordTok (sentences.foldl (sentStep chunk_size overlap wordTok) st)

/-- Embeds `TextChunker.chunk_by_sentences`.  The sentence list is the output of
the external `sent_tokenize` collaborator; `wordTok` is `word_tokenize`
(used only for word counts). -/
def chunk_by_sentences (chunk_size overlap : Nat) (wordTok : Str → List Str)
    (sentences : List Str) : List SChunk :=
  runSentences chunk_size overlap wordTok ⟨[], [], [], 0⟩ sentences

/-- Loop state of `chunk_by_paragraphs`. -/
structure PState where
  chunks : List PChunk
  current_chunk : Str
  current_paragraphs : List Str
  chunk_id : Nat
  deriving Repr, DecidableEq

/-- One iteration of the `chunk_by_paragraphs` loop body: close on
overflow (seeding with the last paragraph truncated to `overlap`
characters), then append the paragraph joined with a blank line. -/
def paraStep (chunk_size overlap : Nat) (wordTok : Str → List Str)
    (st : PState) (p : Str) : PState :=
  let st1 : PState :=
    if (st.current_chunk ++ p).length > chunk_size ∧ st.current_chunk ≠ [] then
      let closed : PChunk :=
        { id := st.chunk_id
          text := pyStrip st.current_chunk
          paragraphs := st.current_paragraphs
          word_count := (wordTok st.current_chunk).length }
      let seeded : Str × List Str :=
        if 0 < overlap ∧ st.current_paragraphs ≠ [] then
          let lastP := st.current_paragraphs.getLast!
          let ovt := if lastP.length ≤ overlap then lastP else lastP.take overlap
          (ovt, [ovt])
        else ([], [])
      { chunks := st.chunks ++ [closed]
        current_chunk := seeded.1
        current_paragraphs := seeded.2
        chunk_id := st.chunk_id + 1 }
    else st
  { st1 with
    current_chunk := pyJoinBuf ['\n', '\n'] st1.current_chunk p
    current_paragraphs := st1.current_paragraphs ++ [p] }

/-- End of `chunk_by_paragraphs`: emit the buffer if non-empty after
stripping. -/
def paraFinalize (wordTok : Str → List Str) (st : PState) : List PChunk :=
  if pyStrip st.current_chunk ≠ [] then
    st.chunks ++
      [{ id := st.chunk_id
         text := pyStrip st.current_chunk
         paragraphs := st.current_paragraphs
         word_count := (wordTok st.current_chunk).length }]
  else st.chunks

/-- Embeds `TextChunker.chunk_by_paragraphs`. Paragraphs are the pieces of
`text.split('\n\n')`, stripped, with empty pieces discarded. -/
def chunk_by_paragraphs (chunk_size overlap : Nat) (wordTok : Str → List Str)
    (text : Str) : List PChunk :=
  let paragraphs := ((splitNN text).map pyStrip).filter (fun p => p ≠ [])
  paraFinalize wordTok (paragraphs.foldl (paraStep chunk_size overlap wordTok) ⟨[], [], [], 0⟩)

/-- The window starts visited by `_fallback_chunk`'s
`range(0, len(text), chunk_size - overlap)` for a positive step. -/
def fallbackStarts (len step : Nat) : List Nat :=
  (List.range ((len + step - 1) / step)).map (fun k => k * step)

/-- Body of `_fallback_chunk`'s `for i in range(...)` loop: slice the next
window, and emit it (with the next id) when its stripped text is
non-empty. -/
def fallbackStep (chunk_size : Nat) (wordTok : Str → List Str) (text : Str)
    (st : List FChunk × Nat) (i : Nat) : List FChunk × Nat :=
  let chunk_text := (text.drop i).take chunk_size
  if pyStrip chunk_text ≠ [] then
    (st.1 ++
      [{ id := st.2
         text := pyStrip chunk_text
         word_count := (wordTok chunk_text).length
         start_pos := i
         end_pos := min (i + chunk_size) text.length }],
     st.2 + 1)
  else st

/-- Emit the fallback chunks over a given list of window starts (the body
of the `for i in range(...)` loop, threading the chunk-id counter). -/
def fallbackEmit (chunk_size : Nat) (wordTok : Str → List Str) (text : Str)
    (starts : List Nat) : List FChunk :=
  (starts.foldl (fallbackStep chunk_size wordTok text) ([], 0)).1

/-- Embeds `TextChunker._fallback_chunk`.  The loop is
`for i in range(0, len(text), chunk_size - overlap)`; in CPython
`range` with step `0` raises `ValueError` (modelled as `none`) and with a
negative step (here: whenever `overlap > chunk_size`, since the start is
`0` and the stop `len(text)` is non-negative) yields no iterations at all. -/
def fallback_chunk (chunk_size overlap : Nat) (wordTok : Str → List Str)
    (text : Str) : Option (List FChunk) :=
  if chunk_size = overlap then none
  else if chunk_size < overlap then some []
  else some (fallbackEmit chunk_size wordTok text
    (fallbackStarts text.length (chunk_size - overlap)))

/-! ## TextSearcher (src/backend/text_processor.py, class TextSearcher) -/

/-- The fields of a chunk dict that `TextSearcher` reads (`chunk['text']`)
plus the id, which identifies the chunk in ordering properties. -/
structure SearchChunk where
  id : Nat
  text : Str
  deriving Repr, DecidableEq

/-- A search result dict. -/
structure SearchResult where
  chunk : SearchChunk
  score : ℚ
  matchList : List (Nat × Nat)
  snippet : Str
  deriving Repr, DecidableEq

/-- Embeds `TextSearcher._calculate_relevance_score(text, query_terms)`: for each
query term add twice its non-overlapping occurrence count when it occurs
in the lowercased text, plus `0.5` for every tokenized word that contains
the term (terms of length > 2 only); finally divide by the word count
(score `0.0` when there are no words). Floats are modelled as rationals. -/
def calculate_relevance_score (wordTok : Str → List Str)
    (text : Str) (query_terms : List Str) : ℚ :=
  let text_lower := pyLower text
  let text_words := wordTok text_lower
  let score := query_terms.foldl
    (fun sc term =>
      let sc := if isSubstr term text_lower then
          sc + (pyCount text_lower term : ℚ) * 2 else sc
      text_words.foldl
        (fun sc2 word =>
          if isSubstr term word ∧ 2 < term.length then sc2 + 1/2 else sc2)
        sc)
    0
  if text_words ≠ [] then score / (text_words.length : ℚ) else 0

/-- Embeds `TextSearcher._find_matches(text, query)`.  The source loops
`pos = text_lower.find(query_lower, start)`, records
`(pos, pos + len(query))` and sets `start = pos + 1`; since each `find`
scans forward from `start`, the loop visits every matching position
exactly once in increasing order.  Embedded as a left-to-right scan over
all candidate positions, threading the `start` pointer as state. -/
def find_matches (text query : Str) : List (Nat × Nat) :=
  let query_lower := pyLower query
  let text_lower := pyLower text
  ((List.range (text_lower.length + 1)).foldl
    (fun (st : List (Nat × Nat) × Nat) pos =>
      if st.2 ≤ pos ∧ strMatchAt text_lower query_lower pos then
        (st.1 ++ [(pos, pos + query.length)], pos + 1)
      else st)
    ([], 0)).1

/-- Embeds `TextSearcher._generate_snippet(text, query, max_length)`. -/
def generate_snippet (text query : Str) (max_length : Nat) : Str :=
  let query_lower := pyLower query
  let text_lower := pyLower text
  match pyFind text_lower query_lower 0 with
  | none =>
    if text.length > max_length then text.take max_length ++ ['.', '.', '.'] else text
  | some pos =>
    let start := pos - max_length / 2
    let stop := min text.length (start + max_length)
    let snippet := (text.take stop).drop start
    let snippet := if start > 0 then ['.', '.', '.'] ++ snippet else snippet
    if stop < text.length then snippet ++ ['.', '.', '.'] else snippet

/-- Stable insertion used to model CPython's stable
`results.sort(key=lambda x: x['score'], reverse=True)`: a new element is
placed before the first element of strictly smaller score, hence after all
earlier elements of equal score. -/
def insResultDesc (x : SearchResult) : List SearchResult → List SearchResult
  | [] => [x]
  | y :: ys => if y.score < x.score then x :: y :: ys else y :: insResultDesc x ys

/-- Stable sort by score descending (the unique stable-sort result, hence
a faithful model of CPython's Timsort with `reverse=True`). -/
def sortResultsDesc (l : List SearchResult) : List SearchResult :=
  l.foldl (fun acc x => insResultDesc x acc) []

/-- Embeds `TextSearcher.search_chunks(query, max_results)`.  `stop` is
membership in the NLTK English stop-word set, `wordTok` is
`word_tokenize`; both are external collaborators. -/
def search_chunks (stop : Str → Bool) (wordTok : Str → List Str)
    (chunks : List SearchChunk) (query : Str) (max_results : Nat) :
    List SearchResult :=
  let query_terms :=
    ((wordTok query).map pyLower).filter (fun t => ¬ stop t)
  let results := chunks.filterMap (fun c =>
    let score := calculate_relevance_score wordTok c.text query_terms
    if 0 < score then
      some { chunk := c
             score := score
             matchList := find_matches c.text query
             snippet := generate_snippet c.text query 200 }
    else none)
  (sortResultsDesc results).take max_results

/-! ## Specification-side definitions (for refinement-style claims) -/

/-- Modelled from the spec: the match list as the spec for claim C5 words
it — all case-insensitive occurrence positions of the literal query, each
paired with `start + len(query)`, in left-to-right order. -/
def matchesSpec (text query : Str) : List (Nat × Nat) :=
  ((List.range ((pyLower text).length + 1)).filter
    (fun i => strMatchAt (pyLower text) (pyLower query) i)).map
    (fun p => (p, p + query.length))

/-- A list of intervals is pairwise non-overlapping (each interval ends at
or before the next begins), as claim C5 asserts of the match list. -/
def nonOverlapping (l : List (Nat × Nat)) : Prop :=
  l.Pairwise (fun a b => a.2 ≤ b.1)

/-! ## Helper lemmas: dense id assignment -/

theorem sentStep_ids (cs ov : Nat) (tok : Str → List Str) (st : SState) (s : Str)
    (h1 : st.chunks.map SChunk.id = List.range st.chunks.length)
    (h2 : st.chunk_id = st.chunks.length) :
    (sentStep cs ov tok st s).chunks.map SChunk.id
        = List.range (sentStep cs ov tok st s).chunks.length
      ∧ (sentStep cs ov tok st s).chunk_id = (sentStep cs ov tok st s).chunks.length := by
  unfold sentStep
  by_cases hc : (st.current_chunk ++ s).length > cs ∧ st.current_chunk ≠ []
  · simp only [if_pos hc]
    refine ⟨?_, ?_⟩
    · simp [h1, h2, List.range_succ]
    · simp [h2]
  · simp only [if_neg hc]
    exact ⟨h1, h2⟩

theorem foldl_sentStep_ids (cs ov : Nat) (tok : Str → List Str) :
    ∀ (l : List Str) (st : SState),
    st.chunks.map SChunk.id = List.range st.chunks.length →
    st.chunk_id = st.chunks.length →
    ((l.foldl (sentStep cs ov tok) st).chunks.map SChunk.id
        = List.range (l.foldl (sentStep cs ov tok) st).chunks.length
      ∧ (l.foldl (sentStep cs ov tok) st).chunk_id
        = (l.foldl (sentStep cs ov tok) st).chunks.length) := by
  intro l
  induction l with
  | nil => intro st h1 h2; exact ⟨h1, h2⟩
  | cons s rest ih =>
    intro st h1 h2
    have h := sentStep_ids cs ov tok st s h1 h2
    exact ih (sentStep cs ov tok st s) h.1 h.2

theorem paraStep_ids (cs ov : Nat) (tok : Str → List Str) (st : PState) (p : Str)
    (h1 : st.chunks.map PChunk.id = List.range st.chunks.length)
    (h2 : st.chunk_id = st.chunks.length) :
    (paraStep cs ov tok st p).chunks.map PChunk.id
        = List.range (paraStep cs ov tok st p).chunks.length
      ∧ (paraStep cs ov tok st p).chunk_id = (paraStep cs ov tok st p).chunks.length := by
  unfold paraStep
  by_cases hc : (st.current_chunk ++ p).length > cs ∧ st.current_chunk ≠ []
  · simp only [if_pos hc]
    refine ⟨?_, ?_⟩
    · simp [h1, h2, List.range_succ]
    · simp [h2]
  · simp only [if_neg hc]
    exact ⟨h1, h2⟩

theorem foldl_paraStep_ids (cs ov : Nat) (tok : Str → List Str) :
    ∀ (l : List Str) (st : PState),
    st.chunks.map PChunk.id = List.range st.chunks.length →
    st.chunk_id = st.chunks.length →
    ((l.foldl (paraStep cs ov tok) st).chunks.map PChunk.id
        = List.range (l.foldl (paraStep cs ov tok) st).chunks.length
      ∧ (l.foldl (paraStep cs ov tok) st).chunk_id
        = (l.foldl (paraStep cs ov tok) st).chunks.length) := by
  intro l
  induction l with
  | nil => intro st h1 h2; exact ⟨h1, h2⟩
  | cons s rest ih =>
    intro st h1 h2
    have h := paraStep_ids cs ov tok st s h1 h2
    exact ih (paraStep cs ov tok st s) h.1 h.2

theorem fallbackEmit_ids (cs : Nat) (tok : Str → List Str) (text : Str) :
    ∀ (starts : List Nat) (acc : List FChunk × Nat),
    acc.1.map FChunk.id = List.range acc.1.length →
    acc.2 = acc.1.length →
    ((starts.foldl (fallbackStep cs tok text) acc).1.map FChunk.id
        = List.range ((starts.foldl (fallbackStep cs tok text) acc).1.length)
      ∧ (starts.foldl (fallbackStep cs tok text) acc).2
        = (starts.foldl (fallbackStep cs tok text) acc).1.length) := by
  intro starts
  induction starts with
  | nil => intro acc h1 h2; exact ⟨h1, h2⟩
  | cons i rest ih =>
    intro acc h1 h2
    by_cases hc : pyStrip ((text.drop i).take cs) ≠ []
    · refine ih _ ?_ ?_ <;> simp [fallbackStep, hc, h1, h2, List.range_succ]
    · refine ih _ ?_ ?_ <;> simp [fallbackStep, hc, h1, h2]

theorem sentFinalize_ids (tok : Str → List Str) (st : SState)
    (h1 : st.chunks.map SChunk.id = List.range st.chunks.length)
    (h2 : st.chunk_id = st.chunks.length) :
    (sentFinalize tok st).map SChunk.id = List.range (sentFinalize tok st).length := by
  unfold sentFinalize
  by_cases hc : pyStrip st.current_chunk ≠ []
  · simp only [if_pos hc]
    simp [h1, h2, List.range_succ]
  · simp only [if_neg hc]
    exact h1

theorem paraFinalize_ids (tok : Str → List Str) (st : PState)
    (h1 : st.chunks.map PChunk.id = List.range st.chunks.length)
    (h2 : st.chunk_id = st.chunks.length) :
    (paraFinalize tok st).map PChunk.id = List.range (paraFinalize tok st).length := by
  unfold paraFinalize
  by_cases hc : pyStrip st.current_chunk ≠ []
  · simp only [if_pos hc]
    simp [h1, h2, List.range_succ]
  · simp only [if_neg hc]
    exact h1

/-- C1: for every input and every valid configuration
(`chunk_size > 0`, `0 ≤ overlap < chunk_size`), the chunks returned by
`chunk_by_sentences`, `chunk_by_paragraphs` and the fallback fixed-width
chunker carry ids forming exactly the sequence `0, 1, ..., N-1` in
emission order. -/
theorem C1_chunk_ids_dense (cs ov : Nat) (tok : Str → List Str)
    (sents : List Str) (ptext ftext : Str)
    (hcs : 0 < cs) (hov : ov < cs) :
    ((chunk_by_sentences cs ov tok sents).map SChunk.id
        = List.range (chunk_by_sentences cs ov tok sents).length)
    ∧ ((chunk_by_paragraphs cs ov tok ptext).map PChunk.id
        = List.range (chunk_by_paragraphs cs ov tok ptext).length)
    ∧ (∀ l, fallback_chunk cs ov tok ftext = some l →
        l.map FChunk.id = List.range l.length) := by
  refine ⟨?_, ?_, ?_⟩
  · have h := foldl_sentStep_ids cs ov tok sents ⟨[], [], [], 0⟩ (by simp) (by simp)
    exact sentFinalize_ids tok _ h.1 h.2
  · have h := foldl_paraStep_ids cs ov tok
      (((splitNN ptext).map pyStrip).filter (fun p => p ≠ [])) ⟨[], [], [], 0⟩ (by simp) (by simp)
    exact paraFinalize_ids tok _ h.1 h.2
  · intro l hl
    unfold fallback_chunk at hl
    have hne : ¬ cs = ov := by omega
    have hlt : ¬ cs < ov := by omega
    rw [if_neg hne, if_neg hlt] at hl
    have h := fallbackEmit_ids cs tok ftext
      (fallbackStarts ftext.length (cs - ov)) ([], 0) (by simp) (by simp)
    have : l = fallbackEmit cs tok ftext (fallbackStarts ftext.length (cs - ov)) := by
      injection hl with h'; exact h'.symm
    subst this
    exact h.1

/-- Witness for C1 at a concrete valid configuration and inputs. -/
theorem C1_chunk_ids_dense_witness :
    (0 < 5 ∧ 2 < 5)
    ∧ (((chunk_by_sentences 5 2 (fun s => [s])
          ["abc.".toList, "defg.".toList, "hi.".toList]).map SChunk.id
        = List.range (chunk_by_sentences 5 2 (fun s => [s])
          ["abc.".toList, "defg.".toList, "hi.".toList]).length)
      ∧ ((chunk_by_paragraphs 5 2 (fun s => [s]) "ab\n\ncdef\n\ngh".toList).map PChunk.id
          = List.range (chunk_by_paragraphs 5 2 (fun s => [s]) "ab\n\ncdef\n\ngh".toList).length)
      ∧ (∀ l, fallback_chunk 5 2 (fun s => [s]) "abcdefghijk".toList = some l →
          l.map FChunk.id = List.range l.length)) :=
  ⟨⟨by decide, by decide⟩,
    C1_chunk_ids_dense 5 2 (fun s => [s])
      ["abc.".toList, "defg.".toList, "hi.".toList]
      "ab\n\ncdef\n\ngh".toList "abcdefghijk".toList (by decide) (by decide)⟩

/-- C10: `chunk_size` is not a hard bound in sentence or paragraph mode —
a single unit longer than `chunk_size` is emitted whole, so some chunk's
text exceeds `chunk_size`. -/
theorem C10_unit_longer_than_chunk_size :
    ∃ (chunk_size overlap : Nat) (tok : Str → List Str)
      (sentences : List Str) (ptext : Str),
      (∃ c ∈ chunk_by_sentences chunk_size overlap tok sentences,
        chunk_size < c.text.length)
      ∧ (∃ c ∈ chunk_by_paragraphs chunk_size overlap tok ptext,
        chunk_size < c.text.length) := by
  refine ⟨5, 0, fun s => [s], ["abcdefghij".toList], "abcdefghij".toList, ?_, ?_⟩ <;> decide

/-- C9: the snippet produced by `_generate_snippet` never exceeds
`max_length + 6` characters (the slack covering the two possible `...`
markers). -/
theorem C9_snippet_length (text query : Str) (max_length : Nat) :
    (generate_snippet text query max_length).length ≤ max_length + 6 := by
  unfold generate_snippet
  cases h : pyFind (pyLower text) (pyLower query) 0 with
  | none =>
    simp only [h]
    split
    · simp only [List.length_append, List.length_take]
      simp
    · next hl =>
      simp only [gt_iff_lt, not_lt] at hl
      omega
  | some pos =>
    simp only [h]
    split <;> split <;>
      simp only [List.length_append, List.length_take, List.length_drop] <;>
      simp <;> omega

/-! ## C7: behavior of the fallback chunker when overlap ≥ chunk_size -/

/-- Counterexample to C7: with `chunk_size = 2, overlap = 3` the window
step is negative, `range(0, 4, -1)` is empty, and `_fallback_chunk`
returns an empty chunk list — it terminates and emits nothing (in
particular no duplicates); with `overlap = 2` the step is zero and
`range` raises `ValueError` (modelled as `none`) rather than looping. -/
theorem C7_counterexample :
    fallback_chunk 2 3 (fun s => [s]) "abcd".toList = some []
    ∧ fallback_chunk 2 2 (fun s => [s]) "abcd".toList = none := by
  decide

/-- C7 amended: when `overlap > chunk_size` the fallback's window step is
negative, so `range(0, len(text), step)` is empty and the whole text is
silently dropped (an empty chunk list — neither non-termination nor
duplicate emission); when `overlap = chunk_size` the zero step makes
`range` raise `ValueError`.  Neither case is a configuration-error
check. -/
theorem C7_overlap_ge_chunk_size (cs ov : Nat) (tok : Str → List Str) (text : Str) :
    (cs < ov → fallback_chunk cs ov tok text = some [])
    ∧ (cs = ov → fallback_chunk cs ov tok text = none) := by
  constructor
  · intro h
    unfold fallback_chunk
    rw [if_neg (by omega), if_pos h]
  · intro h
    unfold fallback_chunk
    rw [if_pos h]

/-- Witness for C7's amended statement at concrete configurations. -/
theorem C7_overlap_ge_chunk_size_witness :
    fallback_chunk 4 7 (fun s => [s]) "xyzw".toList = some []
    ∧ fallback_chunk 4 4 (fun s => [s]) "xyzw".toList = none :=
  ⟨(C7_overlap_ge_chunk_size 4 7 (fun s => [s]) "xyzw".toList).1 (by decide),
   (C7_overlap_ge_chunk_size 4 4 (fun s => [s]) "xyzw".toList).2 rfl⟩

/-! ## C6: fallback span structure -/

theorem fallbackEmit_mem_span (cs : Nat) (tok : Str → List Str) (text : Str) :
    ∀ (starts : List Nat) (acc : List FChunk × Nat),
    ∀ c ∈ (starts.foldl (fallbackStep cs tok text) acc).1,
      c ∈ acc.1 ∨ ∃ i ∈ starts, c.start_pos = i ∧ c.end_pos = min (i + cs) text.length := by
  intro starts
  induction starts with
  | nil => intro acc c hc; exact Or.inl hc
  | cons i rest ih =>
    intro acc c hc
    rcases ih (fallbackStep cs tok text acc i) c hc with h | ⟨j, hj, h⟩
    · by_cases hemit : pyStrip ((text.drop i).take cs) ≠ []
      · simp only [fallbackStep, if_pos hemit, List.mem_append, List.mem_singleton] at h
        rcases h with h | h
        · exact Or.inl h
        · refine Or.inr ⟨i, List.mem_cons_self i rest, ?_⟩
          subst h
          exact ⟨rfl, rfl⟩
      · simp only [fallbackStep, if_neg hemit] at h
        exact Or.inl h
    · exact Or.inr ⟨j, List.mem_cons_of_mem i hj, h⟩

theorem fallbackEmit_startPos (cs : Nat) (tok : Str → List Str) (text : Str) :
    ∀ (starts : List Nat) (acc : List FChunk × Nat),
    ((starts.foldl (fallbackStep cs tok text) acc).1).map FChunk.start_pos
      = acc.1.map FChunk.start_pos
        ++ starts.filter (fun i => pyStrip ((text.drop i).take cs) ≠ []) := by
  intro starts
  induction starts with
  | nil => intro acc; simp
  | cons i rest ih =>
    intro acc
    by_cases hemit : pyStrip ((text.drop i).take cs) ≠ []
    · rw [List.foldl_cons, ih, List.filter_cons_of_pos (by simpa using hemit)]
      simp [fallbackStep, hemit]
    · rw [List.foldl_cons, ih, List.filter_cons_of_neg (by simpa using hemit)]
      simp [fallbackStep, hemit]

theorem fallbackStarts_pairwise (len step : Nat) (h : 0 < step) :
    (fallbackStarts len step).Pairwise (fun a b => a < b ∧ step ∣ (b - a)) := by
  unfold fallbackStarts
  rw [List.pairwise_map]
  refine (List.pairwise_lt_range _).imp ?_
  intro a b hab
  refine ⟨?_, ⟨b - a, ?_⟩⟩
  · exact Nat.mul_lt_mul_of_lt_of_le hab (Nat.le_refl step) h
  · rw [← Nat.sub_mul, Nat.mul_comm]

/-- Counterexample to C6: with `chunk_size = 3, overlap = 2` on `"abcd"`,
the fallback emits spans `(0,3), (1,4), (2,4), (3,4)` — the chunk with
span `(2,4)` has length `2 < chunk_size` yet is not the final chunk, so
"only the final chunk possibly shorter than chunk_size" fails. -/
theorem C6_counterexample :
    ((fallback_chunk 3 2 (fun s => [s]) "abcd".toList).map
        (List.map (fun c => (c.start_pos, c.end_pos)))
      = some [(0, 3), (1, 4), (2, 4), (3, 4)])
    ∧ ¬ (∀ l, fallback_chunk 3 2 (fun s => [s]) "abcd".toList = some l →
          ∀ (j : Fin l.length), (j : Nat) + 1 < l.length →
            (l.get j).end_pos - (l.get j).start_pos = 3) := by
  constructor
  · decide
  · intro h
    have hx := h [⟨0, "abc".toList, 1, 0, 3⟩, ⟨1, "bcd".toList, 1, 1, 4⟩,
                  ⟨2, "cd".toList, 1, 2, 4⟩, ⟨3, "d".toList, 1, 3, 4⟩]
      (by decide) ⟨2, by decide⟩ (by decide)
    exact absurd hx (by decide)

/-- C6 amended: in fallback mode (valid configuration) every emitted
span satisfies `end_pos - start_pos ≤ chunk_size`; consecutive *windows*
advance by exactly `chunk_size - overlap`, but whitespace-only windows
are skipped, so consecutively emitted chunks' starts differ by a positive
multiple of `chunk_size - overlap`; and every chunk whose window fits
inside the text (`start_pos + chunk_size ≤ len(text)`) has span length
exactly `chunk_size` — chunks near the end (not only the final one) may
be shorter. -/
theorem C6_fallback_spans (cs ov : Nat) (tok : Str → List Str) (text : Str)
    (hcs : 0 < cs) (hov : ov < cs) (l : List FChunk)
    (hl : fallback_chunk cs ov tok text = some l) :
    (∀ c ∈ l, c.end_pos - c.start_pos ≤ cs)
    ∧ l.Chain' (fun a b =>
        a.start_pos < b.start_pos ∧ (cs - ov) ∣ (b.start_pos - a.start_pos))
    ∧ (∀ c ∈ l, c.start_pos + cs ≤ text.length →
        c.end_pos - c.start_pos = cs) := by
  have hne : ¬ cs = ov := by omega
  have hlt : ¬ cs < ov := by omega
  unfold fallback_chunk at hl
  rw [if_neg hne, if_neg hlt] at hl
  injection hl with hl
  unfold fallbackEmit at hl
  subst hl
  refine ⟨?_, ?_, ?_⟩
  · intro c hc
    rcases fallbackEmit_mem_span cs tok text _ ([], 0) c hc with h | ⟨i, _, h1, h2⟩
    · simp at h
    · rw [h1, h2]; omega
  · have hmap := fallbackEmit_startPos cs tok text
      (fallbackStarts text.length (cs - ov)) ([], 0)
    have hpw := (fallbackStarts_pairwise text.length (cs - ov) (by omega)).filter
      (fun i => decide (pyStrip ((text.drop i).take cs) ≠ []))
    have hmp : ((((fallbackStarts text.length (cs - ov)).foldl
          (fallbackStep cs tok text) ([], 0)).1).map FChunk.start_pos).Pairwise
        (fun a b => a < b ∧ (cs - ov) ∣ (b - a)) := by
      rw [hmap]
      simpa using hpw
    exact (List.pairwise_map.mp hmp).chain'
  · intro c hc hle
    rcases fallbackEmit_mem_span cs tok text _ ([], 0) c hc with h | ⟨i, _, h1, h2⟩
    · simp at h
    · rw [h1, h2]
      rw [h1] at hle
      omega

/-- Witness for C6's amended statement: the concrete run used in the
counterexample satisfies the amended properties. -/
theorem C6_fallback_spans_witness :
    (∀ c ∈ ([⟨0, "abc".toList, 1, 0, 3⟩, ⟨1, "bcd".toList, 1, 1, 4⟩,
             ⟨2, "cd".toList, 1, 2, 4⟩, ⟨3, "d".toList, 1, 3, 4⟩] : List FChunk),
        c.end_pos - c.start_pos ≤ 3)
    ∧ List.Chain' (fun a b =>
        a.start_pos < b.start_pos ∧ (3 - 2) ∣ (b.start_pos - a.start_pos))
        ([⟨0, "abc".toList, 1, 0, 3⟩, ⟨1, "bcd".toList, 1, 1, 4⟩,
          ⟨2, "cd".toList, 1, 2, 4⟩, ⟨3, "d".toList, 1, 3, 4⟩] : List FChunk)
    ∧ (∀ c ∈ ([⟨0, "abc".toList, 1, 0, 3⟩, ⟨1, "bcd".toList, 1, 1, 4⟩,
               ⟨2, "cd".toList, 1, 2, 4⟩, ⟨3, "d".toList, 1, 3, 4⟩] : List FChunk),
        c.start_pos + 3 ≤ "abcd".toList.length →
        c.end_pos - c.start_pos = 3) :=
  C6_fallback_spans 3 2 (fun s => [s]) "abcd".toList (by decide) (by decide) _ (by decide)

/-! ## C8: empty inputs -/

theorem pyStrip_eq_nil_of_ws (l : Str) (h : ∀ c ∈ l, isWS c) : pyStrip l = [] := by
  unfold pyStrip
  have : l.dropWhile isWS = [] := List.dropWhile_eq_nil_iff.mpr h
  simp [this]

theorem splitNN_chars : ∀ (t : Str), ∀ p ∈ splitNN t, ∀ c ∈ p, c ∈ t := by
  intro t
  induction t using splitNN.induct with
  | case1 =>
    intro p hp c hc
    simp [splitNN] at hp
    subst hp
    simp at hc
  | case2 x =>
    intro p hp c hc
    simp [splitNN] at hp
    subst hp
    simpa using hc
  | case3 a b rest hab ih =>
    intro p hp c hc
    rw [splitNN, if_pos hab] at hp
    rcases List.mem_cons.mp hp with h | h
    · subst h; simp at hc
    · have := ih p h c hc
      simp [this]
  | case4 a b rest hab hnil ih =>
    intro p hp c hc
    rw [splitNN, if_neg hab, hnil] at hp
    simp at hp
    subst hp
    simp at hc
    simp [hc]
  | case5 a b rest hab q qs hcons ih =>
    intro p hp c hc
    rw [splitNN, if_neg hab, hcons] at hp
    rcases List.mem_cons.mp hp with h | h
    · subst h
      rcases List.mem_cons.mp hc with h' | h'
      · simp [h']
      · have := ih q (by rw [hcons]; exact List.mem_cons_self q qs) c h'
        simp [this]
    · have := ih p (by rw [hcons]; exact List.mem_cons_of_mem q h) c hc
      simp [this]

theorem chunk_by_paragraphs_ws (cs ov : Nat) (tok : Str → List Str) (text : Str)
    (h : ∀ c ∈ text, isWS c) :
    chunk_by_paragraphs cs ov tok text = [] := by
  unfold chunk_by_paragraphs
  have hp : ((splitNN text).map pyStrip).filter (fun p => p ≠ []) = [] := by
    rw [List.filter_eq_nil_iff]
    intro p hp
    rcases List.mem_map.mp hp with ⟨q, hq, rfl⟩
    have hq' : ∀ c ∈ q, isWS c := fun c hc => h c (splitNN_chars text q hq c hc)
    simp [pyStrip_eq_nil_of_ws q hq']
  rw [hp]
  simp [paraFinalize, pyStrip]

theorem calculate_relevance_score_no_terms (tok : Str → List Str) (text : Str) :
    calculate_relevance_score tok text [] = 0 := by
  unfold calculate_relevance_score
  simp

theorem search_chunks_no_terms (stop : Str → Bool) (tok : Str → List Str)
    (chunks : List SearchChunk) (query : Str) (max_results : Nat)
    (h : ((tok query).map pyLower).filter (fun t => ¬ stop t) = []) :
    search_chunks stop tok chunks query max_results = [] := by
  unfold search_chunks
  rw [h]
  simp only [calculate_relevance_score_no_terms, lt_self_iff_false, if_false,
    List.filterMap_eq_nil_iff.mpr (fun _ _ => rfl)]
  simp [sortResultsDesc]

/-- C8: empty inputs are not errors.  Empty or whitespace-only text yields
an empty chunk sequence: the sentence tokenizer (external collaborator)
returns no sentences on such text, and `chunk_by_sentences` of an empty
sentence list emits nothing; `chunk_by_paragraphs` discards every
whitespace-only paragraph piece itself.  A query that is empty or all
stop-words after tokenization yields the empty result sequence from
`search_chunks` for any chunk set. -/
theorem C8_empty_inputs (cs ov max_results : Nat) (tok : Str → List Str)
    (stop : Str → Bool) (ptext : Str) (chunks : List SearchChunk) (query : Str)
    (hws : ∀ c ∈ ptext, isWS c)
    (hq : ((tok query).map pyLower).filter (fun t => ¬ stop t) = []) :
    chunk_by_sentences cs ov tok [] = []
    ∧ chunk_by_paragraphs cs ov tok ptext = []
    ∧ search_chunks stop tok chunks query max_results = [] := by
  refine ⟨?_, chunk_by_paragraphs_ws cs ov tok ptext hws,
    search_chunks_no_terms stop tok chunks query max_results hq⟩
  simp [chunk_by_sentences, runSentences, sentFinalize, pyStrip]

/-- Witness for C8: whitespace-only text and the stop-word query `"the"`. -/
theorem C8_empty_inputs_witness :
    chunk_by_sentences 10 2 (fun s => [s]) [] = []
    ∧ chunk_by_paragraphs 10 2 (fun s => [s]) "  \n\n  ".toList = []
    ∧ search_chunks (fun t => t = "the".toList) (fun s => [s])
        [⟨0, "the quick brown fox".toList⟩] "the".toList 5 = [] :=
  C8_empty_inputs 10 2 5 (fun s => [s]) (fun t => t = "the".toList)
    "  \n\n  ".toList [⟨0, "the quick brown fox".toList⟩] "the".toList
    (by decide) (by decide)

/-! ## C4: monotonicity of the relevance score -/

theorem foldl_count_const (hay needle : Str) :
    ∀ (l : List Nat) (st : Nat × Nat), (∀ i ∈ l, strMatchAt hay needle i = false) →
    l.foldl
      (fun (st : Nat × Nat) i =>
        if st.2 ≤ i ∧ strMatchAt hay needle i then
          (st.1 + 1, i + max 1 needle.length)
        else st)
      st = st := by
  intro l
  induction l with
  | nil => intro st _; rfl
  | cons i rest ih =>
    intro st h
    have hi : strMatchAt hay needle i = false := h i (List.mem_cons_self i rest)
    rw [List.foldl_cons, if_neg (by simp [hi])]
    exact ih st (fun j hj => h j (List.mem_cons_of_mem i hj))

theorem pyCount_eq_zero (hay needle : Str) (h : isSubstr needle hay = false) :
    pyCount hay needle = 0 := by
  unfold isSubstr at h
  have h' : pyFind hay needle 0 = none := by
    cases hf : pyFind hay needle 0 with
    | none => rfl
    | some p => rw [hf] at h; simp at h
  unfold pyFind at h'
  rw [List.find?_eq_none] at h'
  unfold pyCount
  rw [foldl_count_const hay needle _ (0, 0) ?_]
  intro i hi
  have := h' i hi
  simpa using this

theorem score_branch_eq (tl term : Str) (sc : ℚ) :
    (if isSubstr term tl then sc + (pyCount tl term : ℚ) * 2 else sc)
      = sc + (pyCount tl term : ℚ) * 2 := by
  by_cases h : isSubstr term tl
  · rw [if_pos h]
  · rw [if_neg h]
    rw [pyCount_eq_zero tl term (by simpa using h)]
    simp

theorem foldl_half_count (P : Str → Prop) [DecidablePred P] :
    ∀ (l : List Str) (sc : ℚ),
    l.foldl (fun s w => if P w then s + 1/2 else s) sc
      = sc + ((l.filter (fun w => decide (P w))).length : ℚ) * (1/2) := by
  intro l
  induction l with
  | nil => intro sc; simp
  | cons w ws ih =>
    intro sc
    by_cases h : P w
    · rw [List.foldl_cons, if_pos h, ih, List.filter_cons_of_pos (by simpa using h)]
      simp only [List.length_cons]
      push_cast
      ring
    · rw [List.foldl_cons, if_neg h, ih, List.filter_cons_of_neg (by simpa using h)]

theorem score_fold_mono (tok : Str → List Str) (t1 t2 : Str) :
    ∀ (terms : List Str) (a1 a2 : ℚ),
    a1 ≤ a2 →
    (∀ term ∈ terms, pyCount (pyLower t1) term ≤ pyCount (pyLower t2) term) →
    (∀ term ∈ terms,
      ((tok (pyLower t1)).filter
          (fun w => decide (isSubstr term w ∧ 2 < term.length))).length
        = ((tok (pyLower t2)).filter
            (fun w => decide (isSubstr term w ∧ 2 < term.length))).length) →
    terms.foldl
      (fun sc term =>
        (tok (pyLower t1)).foldl
          (fun sc2 word => if isSubstr term word ∧ 2 < term.length then sc2 + 1/2 else sc2)
          (if isSubstr term (pyLower t1) then sc + (pyCount (pyLower t1) term : ℚ) * 2 else sc))
      a1
    ≤ terms.foldl
      (fun sc term =>
        (tok (pyLower t2)).foldl
          (fun sc2 word => if isSubstr term word ∧ 2 < term.length then sc2 + 1/2 else sc2)
          (if isSubstr term (pyLower t2) then sc + (pyCount (pyLower t2) term : ℚ) * 2 else sc))
      a2 := by
  intro terms
  induction terms with
  | nil => intro a1 a2 h _ _; exact h
  | cons term rest ih =>
    intro a1 a2 h hcount hhits
    rw [List.foldl_cons, List.foldl_cons]
    apply ih
    · rw [foldl_half_count (fun w => isSubstr term w ∧ 2 < term.length),
          foldl_half_count (fun w => isSubstr term w ∧ 2 < term.length),
          score_branch_eq, score_branch_eq,
          hhits term (List.mem_cons_self term rest)]
      have hc : (pyCount (pyLower t1) term : ℚ) ≤ (pyCount (pyLower t2) term : ℚ) := by
        exact_mod_cast hcount term (List.mem_cons_self term rest)
      linarith
    · intro x hx; exact hcount x (List.mem_cons_of_mem term hx)
    · intro x hx; exact hhits x (List.mem_cons_of_mem term hx)

/-- C4: increasing the number of occurrences of query terms in a chunk's
text, all else equal — same tokenized word count, and unchanged per-word
partial-match hits — never decreases the relevance score computed by
`_calculate_relevance_score`. -/
theorem C4_score_monotone (tok : Str → List Str) (t1 t2 : Str) (terms : List Str)
    (hlen : (tok (pyLower t1)).length = (tok (pyLower t2)).length)
    (hcount : ∀ term ∈ terms, pyCount (pyLower t1) term ≤ pyCount (pyLower t2) term)
    (hhits : ∀ term ∈ terms,
      ((tok (pyLower t1)).filter
          (fun w => decide (isSubstr term w ∧ 2 < term.length))).length
        = ((tok (pyLower t2)).filter
            (fun w => decide (isSubstr term w ∧ 2 < term.length))).length) :
    calculate_relevance_score tok t1 terms ≤ calculate_relevance_score tok t2 terms := by
  have hm := score_fold_mono tok t1 t2 terms 0 0 le_rfl hcount hhits
  simp only [calculate_relevance_score]
  by_cases h1 : tok (pyLower t1) ≠ []
  · have h2 : tok (pyLower t2) ≠ [] := by
      intro hnil
      rw [hnil, List.length_nil] at hlen
      exact h1 (List.eq_nil_of_length_eq_zero hlen)
    rw [if_pos h1, if_pos h2, hlen]
    have hpos : 0 < ((tok (pyLower t2)).length : ℚ) := by
      have : (tok (pyLower t2)).length ≠ 0 := fun hz => h2 (List.eq_nil_of_length_eq_zero hz)
      exact_mod_cast Nat.pos_of_ne_zero this
    exact (div_le_div_iff_of_pos_right hpos).mpr hm
  · have h2 : ¬ tok (pyLower t2) ≠ [] := by
      intro hne
      apply h1
      intro hnil
      rw [hnil, List.length_nil] at hlen
      exact hne (List.eq_nil_of_length_eq_zero hlen.symm)
    rw [if_neg h1, if_neg h2]

/-- Witness for C4: the term `"ab"` occurs once in `"ab"` and not at all
in `"xy"`; word counts and partial-hit counts agree, and the score does
not decrease. -/
theorem C4_score_monotone_witness :
    calculate_relevance_score (fun s => [s]) "xy".toList ["ab".toList]
      ≤ calculate_relevance_score (fun s => [s]) "ab".toList ["ab".toList] :=
  C4_score_monotone (fun s => [s]) "xy".toList "ab".toList ["ab".toList]
    (by decide) (by decide) (by decide)

/-! ## C5: the match list -/

theorem find_matches_scan (tl ql : Str) (qlen : Nat) :
    ∀ (l : List Nat) (acc : List (Nat × Nat)) (s : Nat),
    (∀ p ∈ l, s ≤ p) → l.Pairwise (· < ·) →
    (l.foldl
      (fun (st : List (Nat × Nat) × Nat) pos =>
        if st.2 ≤ pos ∧ strMatchAt tl ql pos then
          (st.1 ++ [(pos, pos + qlen)], pos + 1)
        else st)
      (acc, s)).1
    = acc ++ (l.filter (fun p => strMatchAt tl ql p)).map (fun p => (p, p + qlen)) := by
  intro l
  induction l with
  | nil => intro acc s _ _; simp
  | cons p rest ih =>
    intro acc s hs hpw
    have hsp : s ≤ p := hs p (List.mem_cons_self p rest)
    have hrest : ∀ q ∈ rest, p < q := (List.pairwise_cons.mp hpw).1
    by_cases hm : strMatchAt tl ql p
    · rw [List.foldl_cons, if_pos ⟨hsp, hm⟩,
          ih (acc ++ [(p, p + qlen)]) (p + 1) (fun q hq => hrest q hq)
            (List.pairwise_cons.mp hpw).2,
          List.filter_cons_of_pos hm]
      simp
    · rw [List.foldl_cons, if_neg (by simp [hm]),
          ih acc s (fun q hq => le_of_lt (lt_of_le_of_lt hsp (hrest q hq)))
            (List.pairwise_cons.mp hpw).2,
          List.filter_cons_of_neg (by simp [hm])]

/-- Counterexample to C5: for chunk text `"aaa"` and query `"aa"`, the
source loop advances by one character after each hit, so it reports the
overlapping occurrences `(0,2)` and `(1,3)` — the intervals are not
pairwise non-overlapping. -/
theorem C5_counterexample :
    find_matches "aaa".toList "aa".toList = [(0, 2), (1, 3)]
    ∧ ¬ nonOverlapping (find_matches "aaa".toList "aa".toList) := by
  constructor
  · decide
  · unfold nonOverlapping
    decide

/-- C5 amended: `_find_matches` returns the `(start, start + len(query))`
pairs of *all* case-insensitive occurrences of the literal query in the
chunk's text, in strictly increasing (left-to-right) start order; the
listed intervals may overlap whenever occurrences of the query overlap
each other. -/
theorem C5_matches_all_occurrences (text query : Str) :
    find_matches text query = matchesSpec text query
    ∧ (find_matches text query).Pairwise (fun a b => a.1 < b.1) := by
  have heq : find_matches text query = matchesSpec text query := by
    unfold find_matches matchesSpec
    rw [find_matches_scan (pyLower text) (pyLower query) query.length
      (List.range ((pyLower text).length + 1)) [] 0 (fun p _ => Nat.zero_le p)
      (List.pairwise_lt_range _)]
    simp
  refine ⟨heq, ?_⟩
  rw [heq]
  unfold matchesSpec
  rw [List.pairwise_map]
  exact ((List.pairwise_lt_range _).filter _).imp (fun h => h)

/-! ## C3: search result ordering -/

theorem mem_insResultDesc (x : SearchResult) :
    ∀ (l : List SearchResult) (y : SearchResult),
    y ∈ insResultDesc x l ↔ y = x ∨ y ∈ l := by
  intro l
  induction l with
  | nil => intro y; simp [insResultDesc]
  | cons z zs ih =>
    intro y
    by_cases h : z.score < x.score
    · simp [insResultDesc, h]
    · simp only [insResultDesc, if_neg h, List.mem_cons, ih]
      tauto

theorem insResultDesc_pairwise (x : SearchResult) :
    ∀ (l : List SearchResult),
    l.Pairwise (fun a b =>
      b.score < a.score ∨ (a.score = b.score ∧ a.chunk.id < b.chunk.id)) →
    (∀ y ∈ l, y.chunk.id < x.chunk.id) →
    (insResultDesc x l).Pairwise (fun a b =>
      b.score < a.score ∨ (a.score = b.score ∧ a.chunk.id < b.chunk.id)) := by
  intro l
  induction l with
  | nil => intro _ _; simp [insResultDesc]
  | cons y ys ih =>
    intro hpw hid
    rcases List.pairwise_cons.mp hpw with ⟨hy, hys⟩
    by_cases h : y.score < x.score
    · rw [insResultDesc, if_pos h]
      refine List.pairwise_cons.mpr ⟨?_, hpw⟩
      intro z hz
      rcases List.mem_cons.mp hz with rfl | hz'
      · exact Or.inl h
      · left
        rcases hy z hz' with h' | ⟨h', _⟩
        · exact lt_trans h' h
        · rw [← h']; exact h
    · rw [insResultDesc, if_neg h]
      refine List.pairwise_cons.mpr ⟨?_, ih hys (fun z hz => hid z (List.mem_cons_of_mem y hz))⟩
      intro z hz
      rcases (mem_insResultDesc x ys z).mp hz with rfl | hz'
      · rcases eq_or_lt_of_le (le_of_not_lt h) with he | hl
        · exact Or.inr ⟨he.symm, hid y (List.mem_cons_self y ys)⟩
        · exact Or.inl hl
      · exact hy z hz'

theorem foldl_ins_pairwise :
    ∀ (l : List SearchResult) (acc : List SearchResult),
    acc.Pairwise (fun a b =>
      b.score < a.score ∨ (a.score = b.score ∧ a.chunk.id < b.chunk.id)) →
    (∀ y ∈ acc, ∀ x ∈ l, y.chunk.id < x.chunk.id) →
    l.Pairwise (fun a b => a.chunk.id < b.chunk.id) →
    (l.foldl (fun acc x => insResultDesc x acc) acc).Pairwise (fun a b =>
      b.score < a.score ∨ (a.score = b.score ∧ a.chunk.id < b.chunk.id)) := by
  intro l
  induction l with
  | nil => intro acc h _ _; exact h
  | cons x rest ih =>
    intro acc hacc hcross hl
    rcases List.pairwise_cons.mp hl with ⟨hx, hrest⟩
    rw [List.foldl_cons]
    refine ih (insResultDesc x acc)
      (insResultDesc_pairwise x acc hacc
        (fun y hy => hcross y hy x (List.mem_cons_self x rest))) ?_ hrest
    intro y hy z hz
    rcases (mem_insResultDesc x acc y).mp hy with rfl | hy'
    · exact hx z hz
    · exact hcross y hy' z (List.mem_cons_of_mem x hz)

theorem mem_foldl_ins :
    ∀ (l acc : List SearchResult) (y : SearchResult),
    y ∈ l.foldl (fun acc x => insResultDesc x acc) acc ↔ y ∈ acc ∨ y ∈ l := by
  intro l
  induction l with
  | nil => intro acc y; simp
  | cons x rest ih =>
    intro acc y
    rw [List.foldl_cons, ih, mem_insResultDesc]
    simp only [List.mem_cons]
    tauto

theorem sorted_results_props (results : List SearchResult) (n : Nat)
    (hpw : results.Pairwise (fun a b => a.chunk.id < b.chunk.id))
    (hpos : ∀ r ∈ results, 0 < r.score) :
    ((sortResultsDesc results).take n).length ≤ n
    ∧ (∀ r ∈ (sortResultsDesc results).take n, 0 < r.score)
    ∧ ((sortResultsDesc results).take n).Pairwise (fun a b =>
        b.score < a.score ∨ (a.score = b.score ∧ a.chunk.id < b.chunk.id)) := by
  refine ⟨List.length_take_le n _, ?_, ?_⟩
  · intro r hr
    have hr1 : r ∈ sortResultsDesc results := List.mem_of_mem_take hr
    have hr2 := (mem_foldl_ins results [] r).mp hr1
    simp only [List.not_mem_nil, false_or] at hr2
    exact hpos r hr2
  · refine List.Pairwise.sublist (List.take_sublist n _) ?_
    exact foldl_ins_pairwise results [] (List.Pairwise.nil) (by simp) hpw

unseal Rat.mul Rat.inv Rat.add Rat.sub in
/-- Counterexample to C3: a chunk sequence whose ids are not in sequence
order.  Both chunks score `5/2` for query `"fox"`; CPython's stable sort
keeps the insertion (sequence) order, so id `1` is returned before the
equal-scoring id `0` — the claim's "lower chunk id comes first" fails. -/
theorem C3_counterexample :
    ((search_chunks (fun _ => false) (fun s => [s])
        [⟨1, "fox".toList⟩, ⟨0, "fox".toList⟩] "fox".toList 5).map
      (fun r => r.chunk.id) = [1, 0])
    ∧ ((search_chunks (fun _ => false) (fun s => [s])
        [⟨1, "fox".toList⟩, ⟨0, "fox".toList⟩] "fox".toList 5).map
      (fun r => r.score) = [5/2, 5/2]) := by
  constructor
  · decide
  · decide

/-- C3 amended: `search_chunks` returns at most `max_results` results,
every returned result has score > 0, and results are ordered by score
descending with ties broken by the chunk's *position* in the input
sequence (stable sort).  When chunk ids are strictly increasing along the
input sequence — as the Chunker emits them — equal-score ties are
therefore broken by ascending chunk id, as the claim states. -/
theorem C3_search_ordering (stop : Str → Bool) (tok : Str → List Str)
    (chunks : List SearchChunk) (query : Str) (max_results : Nat)
    (hids : chunks.Pairwise (fun a b => a.id < b.id)) :
    (search_chunks stop tok chunks query max_results).length ≤ max_results
    ∧ (∀ r ∈ search_chunks stop tok chunks query max_results, 0 < r.score)
    ∧ (search_chunks stop tok chunks query max_results).Pairwise (fun a b =>
        b.score < a.score ∨ (a.score = b.score ∧ a.chunk.id < b.chunk.id)) := by
  simp only [search_chunks]
  refine sorted_results_props _ max_results ?_ ?_
  · refine hids.filterMap _ ?_
    intro a b hab x hx y hy
    have hxa : x.chunk = a := by
      split at hx
      · simp only [Option.mem_def, Option.some_inj] at hx
        rw [← hx]
      · simp at hx
    have hyb : y.chunk = b := by
      split at hy
      · simp only [Option.mem_def, Option.some_inj] at hy
        rw [← hy]
      · simp at hy
    rw [hxa, hyb]
    exact hab
  · intro r hr
    rcases List.mem_filterMap.mp hr with ⟨a, _, hfa⟩
    split at hfa
    · next hsc =>
      simp only [Option.some_inj] at hfa
      rw [← hfa]
      exact hsc
    · simp at hfa

/-- Witness for C3's amended statement on an id-ascending chunk sequence. -/
theorem C3_search_ordering_witness :
    (search_chunks (fun t => false) (fun s => [s])
        [⟨0, "fox".toList⟩, ⟨1, "fox".toList⟩] "fox".toList 5).length ≤ 5
    ∧ (∀ r ∈ search_chunks (fun t => false) (fun s => [s])
        [⟨0, "fox".toList⟩, ⟨1, "fox".toList⟩] "fox".toList 5, 0 < r.score)
    ∧ (search_chunks (fun t => false) (fun s => [s])
        [⟨0, "fox".toList⟩, ⟨1, "fox".toList⟩] "fox".toList 5).Pairwise (fun a b =>
        b.score < a.score ∨ (a.score = b.score ∧ a.chunk.id < b.chunk.id)) :=
  C3_search_ordering (fun t => false) (fun s => [s])
    [⟨0, "fox".toList⟩, ⟨1, "fox".toList⟩] "fox".toList 5 (by decide)

/-! ## C2: overlap seeding in sentence mode -/

theorem dropWhile_length_le (p : Char → Bool) :
    ∀ (l : Str), (l.dropWhile p).length ≤ l.length := by
  intro l
  induction l with
  | nil => simp
  | cons c cs ih =>
    by_cases h : p c
    · rw [List.dropWhile_cons_of_pos h]
      exact le_trans ih (by simp)
    · rw [List.dropWhile_cons_of_neg h]

theorem dropWhile_eq_self_of_length (p : Char → Bool) :
    ∀ (l : Str), (l.dropWhile p).length = l.length → l.dropWhile p = l := by
  intro l
  induction l with
  | nil => intro _; rfl
  | cons c cs _ =>
    intro hlen
    by_cases h : p c
    · rw [List.dropWhile_cons_of_pos h] at hlen ⊢
      have := dropWhile_length_le p cs
      simp at hlen
      omega
    · rw [List.dropWhile_cons_of_neg h]

theorem pyStrip_self_dropWhile (s : Str) (h : pyStrip s = s) : s.dropWhile isWS = s := by
  have h1 : (s.dropWhile isWS).length ≤ s.length := dropWhile_length_le isWS s
  have h2 : (pyStrip s).length ≤ (s.dropWhile isWS).length := by
    unfold pyStrip
    rw [List.length_reverse]
    have := dropWhile_length_le isWS (s.dropWhile isWS).reverse
    rw [List.length_reverse] at this
    exact this
  rw [h] at h2
  exact dropWhile_eq_self_of_length isWS s (le_antisymm h1 h2)

theorem pyStrip_self_rev_dropWhile (s : Str) (h : pyStrip s = s) :
    s.reverse.dropWhile isWS = s.reverse := by
  have h1 : s.dropWhile isWS = s := pyStrip_self_dropWhile s h
  unfold pyStrip at h
  rw [h1] at h
  have := congrArg List.reverse h
  rw [List.reverse_reverse] at this
  exact this

theorem pyStrip_append_prefix (ov t : Str) (h : pyStrip ov = ov) :
    ov <+: pyStrip (ov ++ t) := by
  rcases hov : ov with _ | ⟨a, ov'⟩
  · exact List.nil_prefix
  · rw [← hov]
    have hfront : ov.dropWhile isWS = ov := pyStrip_self_dropWhile ov h
    have hrev : ov.reverse.dropWhile isWS = ov.reverse := pyStrip_self_rev_dropWhile ov h
    have ha : ¬ isWS a = true := by
      intro hws
      rw [hov, List.dropWhile_cons_of_pos hws] at hfront
      have := congrArg List.length hfront
      have hle := dropWhile_length_le isWS ov'
      simp at this
      omega
    unfold pyStrip
    have hstep1 : (ov ++ t).dropWhile isWS = ov ++ t := by
      rw [hov, List.cons_append, List.dropWhile_cons_of_neg ha]
    rw [hstep1, List.reverse_append, List.dropWhile_append]
    by_cases hemp : (t.reverse.dropWhile isWS).isEmpty
    · rw [if_pos hemp, hrev, List.reverse_reverse]
    · rw [if_neg hemp, List.reverse_append, List.reverse_reverse]
      exact List.prefix_append ov _

theorem runSentences_cons (cs ov : Nat) (tok : Str → List Str) (st : SState)
    (x : Str) (rest : List Str) :
    runSentences cs ov tok st (x :: rest)
      = runSentences cs ov tok (sentStep cs ov tok st x) rest := by
  unfold runSentences
  rw [List.foldl_cons]

theorem sentStep_chunks (cs ov : Nat) (tok : Str → List Str) (st : SState) (s : Str) :
    (sentStep cs ov tok st s).chunks = st.chunks
    ∨ ∃ c, (sentStep cs ov tok st s).chunks = st.chunks ++ [c] := by
  simp only [sentStep]
  by_cases h : (st.current_chunk ++ s).length > cs ∧ st.current_chunk ≠ []
  · rw [if_pos h]
    right
    exact ⟨_, rfl⟩
  · rw [if_neg h]
    left
    rfl

theorem runSentences_chunks_prefix (cs ov : Nat) (tok : Str → List Str) :
    ∀ (rest : List Str) (st : SState),
    ∃ suffix, runSentences cs ov tok st rest = st.chunks ++ suffix := by
  intro rest
  induction rest with
  | nil =>
    intro st
    unfold runSentences
    rw [List.foldl_nil]
    unfold sentFinalize
    by_cases h : pyStrip st.current_chunk ≠ []
    · rw [if_pos h]
      exact ⟨_, rfl⟩
    · rw [if_neg h]
      exact ⟨[], (List.append_nil _).symm⟩
  | cons x rest ih =>
    intro st
    rw [runSentences_cons]
    rcases ih (sentStep cs ov tok st x) with ⟨suffix, hs⟩
    rcases sentStep_chunks cs ov tok st x with hch | ⟨c, hch⟩
    · rw [hs, hch]
      exact ⟨suffix, rfl⟩
    · rw [hs, hch, List.append_assoc]
      exact ⟨[c] ++ suffix, rfl⟩

theorem sentStep_no_close (cs ov : Nat) (tok : Str → List Str) (st : SState) (s : Str)
    (h : ¬ ((st.current_chunk ++ s).length > cs ∧ st.current_chunk ≠ [])) :
    sentStep cs ov tok st s =
      { chunks := st.chunks
        current_chunk := pyJoinBuf [' '] st.current_chunk s
        current_chunk_sentences := st.current_chunk_sentences ++ [s]
        chunk_id := st.chunk_id } := by
  simp only [sentStep]
  rw [if_neg h]

theorem sentStep_close_state (cs ov : Nat) (tok : Str → List Str) (st : SState) (s : Str)
    (h : (st.current_chunk ++ s).length > cs ∧ st.current_chunk ≠ [])
    (hov : 0 < ov) :
    sentStep cs ov tok st s =
      { chunks := st.chunks ++
          [{ id := st.chunk_id
             text := pyStrip st.current_chunk
             sentences := st.current_chunk_sentences
             start_sentence :=
               if st.chunks ≠ [] then st.chunk_id * st.current_chunk_sentences.length else 0
             end_sentence :=
               st.chunk_id * st.current_chunk_sentences.length
                 + st.current_chunk_sentences.length - 1
             word_count := (tok st.current_chunk).length }]
        current_chunk := pyJoinBuf [' ']
          (get_overlap_text ov st.current_chunk_sentences) s
        current_chunk_sentences :=
          st.current_chunk_sentences.filter
            (fun x => isSubstr x (get_overlap_text ov st.current_chunk_sentences)) ++ [s]
        chunk_id := st.chunk_id + 1 } := by
  simp only [sentStep]
  rw [if_pos h]
  by_cases hcs : st.current_chunk_sentences = []
  · rw [if_neg (show ¬ (0 < ov ∧ st.current_chunk_sentences ≠ []) from by simp [hcs])]
    rw [hcs]
    simp [get_overlap_text, get_overlap_go, pyStrip, pyJoinBuf]
  · rw [if_pos (show 0 < ov ∧ st.current_chunk_sentences ≠ [] from ⟨hov, hcs⟩)]

theorem sentStep_close_chunks (cs ov : Nat) (tok : Str → List Str) (st : SState) (s : Str)
    (h : (st.current_chunk ++ s).length > cs ∧ st.current_chunk ≠ []) :
    (sentStep cs ov tok st s).chunks = st.chunks ++
      [{ id := st.chunk_id
         text := pyStrip st.current_chunk
         sentences := st.current_chunk_sentences
         start_sentence :=
           if st.chunks ≠ [] then st.chunk_id * st.current_chunk_sentences.length else 0
         end_sentence :=
           st.chunk_id * st.current_chunk_sentences.length
             + st.current_chunk_sentences.length - 1
         word_count := (tok st.current_chunk).length }] := by
  simp only [sentStep]
  rw [if_pos h]

theorem runSentences_next_chunk (cs ov : Nat) (tok : Str → List Str) :
    ∀ (rest : List Str) (st : SState) (pre : Str) (carried : List Str),
    pyStrip pre = pre →
    (∃ t1, st.current_chunk = pre ++ t1) →
    (∃ l1, st.current_chunk_sentences = carried ++ l1) →
    ∀ c, (runSentences cs ov tok st rest).get? st.chunks.length = some c →
      pre <+: c.text ∧ carried <+: c.sentences := by
  intro rest
  induction rest with
  | nil =>
    intro st pre carried hpre hcur hsents c hc
    unfold runSentences at hc
    rw [List.foldl_nil] at hc
    unfold sentFinalize at hc
    by_cases hne : pyStrip st.current_chunk ≠ []
    · rw [if_pos hne, List.get?_concat_length] at hc
      injection hc with hc
      subst hc
      constructor
      · show pre <+: pyStrip st.current_chunk
        rcases hcur with ⟨t1, ht⟩
        rw [ht]
        exact pyStrip_append_prefix pre t1 hpre
      · show carried <+: st.current_chunk_sentences
        rcases hsents with ⟨l1, hl⟩
        rw [hl]
        exact List.prefix_append carried l1
    · rw [if_neg hne, List.get?_eq_none.mpr (le_refl _)] at hc
      exact absurd hc (by simp)
  | cons x rest ih =>
    intro st pre carried hpre hcur hsents c hc
    rw [runSentences_cons] at hc
    by_cases hcl : (st.current_chunk ++ x).length > cs ∧ st.current_chunk ≠ []
    · rcases runSentences_chunks_prefix cs ov tok rest (sentStep cs ov tok st x)
        with ⟨suffix, hs⟩
      rw [hs, sentStep_close_chunks cs ov tok st x hcl, List.append_assoc,
        List.get?_append_right (le_refl _), Nat.sub_self] at hc
      simp only [List.get?] at hc
      injection hc with hc
      subst hc
      constructor
      · show pre <+: pyStrip st.current_chunk
        rcases hcur with ⟨t1, ht⟩
        rw [ht]
        exact pyStrip_append_prefix pre t1 hpre
      · show carried <+: st.current_chunk_sentences
        rcases hsents with ⟨l1, hl⟩
        rw [hl]
        exact List.prefix_append carried l1
    · have hstep := sentStep_no_close cs ov tok st x hcl
      refine ih (sentStep cs ov tok st x) pre carried hpre ?_ ?_ c ?_
      · rw [hstep]
        rcases hcur with ⟨t1, ht⟩
        show ∃ t2, pyJoinBuf [' '] st.current_chunk x = pre ++ t2
        unfold pyJoinBuf
        by_cases hnil : st.current_chunk ≠ []
        · rw [if_pos hnil, ht]
          exact ⟨t1 ++ [' '] ++ x, by simp⟩
        · rw [if_neg hnil]
          simp only [not_not] at hnil
          rw [hnil] at ht
          rcases (List.append_eq_nil).mp ht.symm with ⟨hp, _⟩
          exact ⟨x, by rw [hp]; rfl⟩
      · rw [hstep]
        rcases hsents with ⟨l1, hl⟩
        show ∃ l2, st.current_chunk_sentences ++ [x] = carried ++ l2
        rw [hl, List.append_assoc]
        exact ⟨l1 ++ [x], rfl⟩
      · rw [hstep]
        rw [hstep] at hc
        exact hc

theorem head?_dropWhile_false (p : Char → Bool) (l : Str) (a : Char)
    (h : (l.dropWhile p).head? = some a) : p a = false := by
  have hm := List.head?_dropWhile_not p l
  rw [h] at hm
  exact hm

theorem dropWhile_eq_self_of_head (p : Char → Bool) (l : Str)
    (h : ∀ a, l.head? = some a → p a = false) : l.dropWhile p = l := by
  cases l with
  | nil => rfl
  | cons c cs =>
    rw [List.dropWhile_cons_of_neg]
    simp [h c rfl]

theorem pyStrip_idem (s : Str) : pyStrip (pyStrip s) = pyStrip s := by
  have hfront : (pyStrip s).dropWhile isWS = pyStrip s := by
    apply dropWhile_eq_self_of_head
    intro a ha
    have hsuf : ((s.dropWhile isWS).reverse.dropWhile isWS)
        <:+ (s.dropWhile isWS).reverse := List.dropWhile_suffix isWS
    have hpre : ((s.dropWhile isWS).reverse.dropWhile isWS).reverse
        <+: s.dropWhile isWS := by
      have := List.reverse_prefix.mpr hsuf
      rwa [List.reverse_reverse] at this
    rcases hpre with ⟨t, ht⟩
    have hhD : (s.dropWhile isWS).head? = some a := by
      rw [← ht, List.head?_append]
      unfold pyStrip at ha
      rw [ha]
      rfl
    exact head?_dropWhile_false isWS s a hhD
  have hback : ((s.dropWhile isWS).reverse.dropWhile isWS).dropWhile isWS
      = (s.dropWhile isWS).reverse.dropWhile isWS := by
    apply dropWhile_eq_self_of_head
    intro a ha
    exact head?_dropWhile_false isWS (s.dropWhile isWS).reverse a ha
  show (((pyStrip s).dropWhile isWS).reverse.dropWhile isWS).reverse = pyStrip s
  rw [hfront]
  show (((((s.dropWhile isWS).reverse.dropWhile isWS).reverse).reverse).dropWhile isWS).reverse
    = pyStrip s
  rw [List.reverse_reverse, hback]
  rfl

/-- C2: in sentence mode with `overlap > 0`, whenever a chunk is closed
because appending the next sentence would exceed `chunk_size`, the next
buffer is seeded with the overlap tail `_get_overlap_text` builds by
walking the closed chunk's sentences from the end (whole sentences only,
stopping before `overlap` characters would be exceeded): the post-step
buffer is exactly that overlap text followed by the appended sentence,
exactly the closed chunk's sentences contained (as substrings) in the
overlap text — and no others — carry over into the new sentence list, and
the next chunk later emitted by the run starts with exactly that overlap
text, its sentence list starting with the carried-over sentences. -/
theorem C2_overlap_seeding (cs ov : Nat) (tok : Str → List Str) (st : SState)
    (s : Str) (rest : List Str) (hov : 0 < ov)
    (hclose : (st.current_chunk ++ s).length > cs ∧ st.current_chunk ≠ []) :
    ((sentStep cs ov tok st s).current_chunk
        = pyJoinBuf [' '] (get_overlap_text ov st.current_chunk_sentences) s)
    ∧ ((sentStep cs ov tok st s).current_chunk_sentences
        = st.current_chunk_sentences.filter
            (fun x => isSubstr x (get_overlap_text ov st.current_chunk_sentences)) ++ [s])
    ∧ (∀ c, (runSentences cs ov tok (sentStep cs ov tok st s) rest).get?
          (sentStep cs ov tok st s).chunks.length = some c →
        get_overlap_text ov st.current_chunk_sentences <+: c.text
        ∧ st.current_chunk_sentences.filter
            (fun x => isSubstr x (get_overlap_text ov st.current_chunk_sentences))
          <+: c.sentences) := by
  have hstate := sentStep_close_state cs ov tok st s hclose hov
  refine ⟨by rw [hstate], by rw [hstate], ?_⟩
  intro c hc
  refine runSentences_next_chunk cs ov tok rest (sentStep cs ov tok st s)
    (get_overlap_text ov st.current_chunk_sentences)
    (st.current_chunk_sentences.filter
      (fun x => isSubstr x (get_overlap_text ov st.current_chunk_sentences)))
    ?_ ?_ ?_ c hc
  · exact pyStrip_idem _
  · rw [hstate]
    show ∃ t1, pyJoinBuf [' '] (get_overlap_text ov st.current_chunk_sentences) s
      = get_overlap_text ov st.current_chunk_sentences ++ t1
    unfold pyJoinBuf
    by_cases hnil : get_overlap_text ov st.current_chunk_sentences ≠ []
    · rw [if_pos hnil]
      exact ⟨[' '] ++ s, by rw [List.append_assoc]⟩
    · rw [if_neg hnil]
      simp only [not_not] at hnil
      rw [hnil]
      exact ⟨s, rfl⟩
  · rw [hstate]
    exact ⟨[s], rfl⟩

/-- Witness for C2: closing a chunk holding `"Hello. Bye."` before
appending `"Next one."` (chunk_size 12, overlap 5) seeds the next buffer
with the overlap tail `"Bye."`, carries exactly `["Bye."]` over, and the
next emitted chunk starts with `"Bye."`. -/
theorem C2_overlap_seeding_witness :
    ((sentStep 12 5 (fun s => [s])
        ⟨[], "Hello. Bye.".toList, ["Hello.".toList, "Bye.".toList], 0⟩
        "Next one.".toList).current_chunk
      = pyJoinBuf [' ']
          (get_overlap_text 5 ["Hello.".toList, "Bye.".toList]) "Next one.".toList)
    ∧ ((sentStep 12 5 (fun s => [s])
        ⟨[], "Hello. Bye.".toList, ["Hello.".toList, "Bye.".toList], 0⟩
        "Next one.".toList).current_chunk_sentences
      = ["Hello.".toList, "Bye.".toList].filter
          (fun x => isSubstr x (get_overlap_text 5 ["Hello.".toList, "Bye.".toList]))
        ++ ["Next one.".toList])
    ∧ (∀ c, (runSentences 12 5 (fun s => [s])
          (sentStep 12 5 (fun s => [s])
            ⟨[], "Hello. Bye.".toList, ["Hello.".toList, "Bye.".toList], 0⟩
            "Next one.".toList) []).get?
        (sentStep 12 5 (fun s => [s])
          ⟨[], "Hello. Bye.".toList, ["Hello.".toList, "Bye.".toList], 0⟩
          "Next one.".toList).chunks.length = some c →
      get_overlap_text 5 ["Hello.".toList, "Bye.".toList] <+: c.text
      ∧ ["Hello.".toList, "Bye.".toList].filter
          (fun x => isSubstr x (get_overlap_text 5 ["Hello.".toList, "Bye.".toList]))
        <+: c.sentences) :=
  C2_overlap_seeding 12 5 (fun s => [s])
    ⟨[], "Hello. Bye.".toList, ["Hello.".toList, "Bye.".toList], 0⟩
    "Next one.".toList [] (by decide) (by decide)
